import Mathlib

/-!
Shallow embedding of `src/DividientUtiles/FilterU.S.DividendChampionsExcel.py`.

Modelling conventions:
* A spreadsheet cell is `Cell`: a numeric value (modelled as a rational,
  the idealisation of a Python float), a string, or a null (pandas `NaN`
  / `None`).
* Python floats are modelled as rationals `ℚ`; `round(x, 2)` is modelled
  as exact round-half-to-even at two decimal places.
* `float(s)` on a string is modelled by `parseFloatChars`, covering the
  decimal forms (optional surrounding whitespace, optional sign, digits
  with an optional fractional part) that spreadsheet cells produce;
  exponent forms and the special words `inf`/`nan` are outside the model.
* A pandas DataFrame is a `Table`: a header list plus rows of cells
  aligned with the headers.
-/

namespace DividendFilter

/-- A spreadsheet cell value: a number, a string, or null (pandas `NaN`). -/
inductive Cell where
  | num (q : ℚ)
  | str (s : String)
  | null
deriving DecidableEq

/-- The comparison operators used in `column_definitions`: `operator.gt`
and `operator.le` are the only ones occurring in the source. -/
inductive Cmp where
  | gt
  | le
deriving DecidableEq

/-- `Cmp.apply c a b` is Python `op_func(a, b)`: `operator.gt a b = (a > b)`,
`operator.le a b = (a ≤ b)`. -/
def Cmp.apply : Cmp → ℚ → ℚ → Bool
  | .gt, a, b => decide (b < a)
  | .le, a, b => decide (a ≤ b)

/-- A style dictionary (`style=` argument of `ColumnSettings`): the keys
`font_color`, `bold`, `fill_color` of `StyleAttr`. -/
structure Style where
  font_color : Option String
  bold : Bool
  fill_color : Option String
deriving DecidableEq

/-- A conditional style dictionary: the `condition` key holds an
`(operator, threshold)` pair, plus an optional font color. -/
structure CondStyle where
  condition : Cmp × ℚ
  font_color : Option String
deriving DecidableEq

/-- `ColumnSettings` dataclass of the source. -/
structure ColumnSettings where
  column_name : String
  filter : Option (Cmp × ℚ)
  style : Option Style
  conditional_style : Option CondStyle
deriving DecidableEq

/-- `Colors.RED_COLOR`. -/
def RED_COLOR : String := "EA3323"
/-- `Colors.BLUE_COLOR`. -/
def BLUE_COLOR : String := "2F6EBA"
/-- `Colors.GRAY_COLOR`. -/
def GRAY_COLOR : String := "808080"

/-- `MARKET_DIVIDEND_YIELD = 1.34`. -/
def MARKET_DIVIDEND_YIELD : ℚ := mkRat 134 100
/-- `UPPER_LIMIT_FOR_DIVIDEND_YIELD = 2`. -/
def UPPER_LIMIT_FOR_DIVIDEND_YIELD : ℚ := 2

/-- The fixed `column_definitions` list of the source, entry for entry. -/
def column_definitions : List ColumnSettings := [
  ⟨"Company Name", none, none, none⟩,
  ⟨"Ticker Symbol", none, none, none⟩,
  ⟨"Sector", none, none, none⟩,
  ⟨"Industry", none, none, none⟩,
  ⟨"No. Yrs", some (Cmp.gt, 25), some ⟨none, true, none⟩, none⟩,
  ⟨"Price", none, some ⟨some BLUE_COLOR, false, none⟩, none⟩,
  ⟨"Div. Yield", some (Cmp.gt, MARKET_DIVIDEND_YIELD), none,
    some ⟨(Cmp.gt, UPPER_LIMIT_FOR_DIVIDEND_YIELD), some RED_COLOR⟩⟩,
  ⟨"MR% Inc.", some (Cmp.gt, 6), some ⟨some GRAY_COLOR, false, none⟩, none⟩,
  ⟨"DGR 1-yr", some (Cmp.gt, 6), some ⟨some GRAY_COLOR, false, none⟩, none⟩,
  ⟨"DGR 3-yr", some (Cmp.gt, 6), some ⟨some GRAY_COLOR, false, none⟩, none⟩,
  ⟨"DGR 5-yr", some (Cmp.gt, 6), some ⟨some GRAY_COLOR, false, none⟩, none⟩,
  ⟨"DGR 10-yr", some (Cmp.gt, 6), some ⟨some GRAY_COLOR, false, none⟩, none⟩,
  ⟨"EPS% Payout", some (Cmp.le, 60), none, none⟩,
  ⟨"Past 5yr Growth", some (Cmp.gt, 0), some ⟨some BLUE_COLOR, false, none⟩, none⟩,
  ⟨"Est-5yr Growth", some (Cmp.gt, 0), some ⟨some BLUE_COLOR, false, none⟩, none⟩,
  ⟨"MktCap ($Mil)", none, some ⟨some BLUE_COLOR, false, none⟩, none⟩,
  ⟨"Debt/ Equity", none, some ⟨some BLUE_COLOR, false, none⟩, none⟩]

/-- Rational addition computed on numerators and denominators (the
kernel-computable form of `a + b`; see `qAdd_eq`). -/
def qAdd (a b : ℚ) : ℚ := mkRat (a.num * b.den + b.num * a.den) (a.den * b.den)

/-- Rational negation computed on the numerator (see `qNeg_eq`). -/
def qNeg (a : ℚ) : ℚ := mkRat (-a.num) a.den

/-- Rational subtraction (see `qSub_eq`). -/
def qSub (a b : ℚ) : ℚ := qAdd a (qNeg b)

/-- Rational multiplication computed on numerators and denominators
(see `qMul_eq`). -/
def qMul (a b : ℚ) : ℚ := mkRat (a.num * b.num) (a.den * b.den)

/-- Rational absolute value computed on the numerator (see `qAbs_eq`). -/
def qAbs (a : ℚ) : ℚ := mkRat |a.num| a.den

/-- Numeric value of a decimal digit, `none` on any other character. -/
def digOf (c : Char) : Option ℕ :=
  if c.isDigit then some (c.toNat - 48) else none

/-- Reads a run of decimal digits left to right into a natural number;
`none` as soon as a non-digit appears.  `digitsToNatAux [] acc = some acc`,
matching Python's acceptance of an empty digit run on one side of the dot. -/
def digitsToNatAux : List Char → ℕ → Option ℕ
  | [], acc => some acc
  | c :: cs, acc =>
    match digOf c with
    | some d => digitsToNatAux cs (acc * 10 + d)
    | none => none

/-- Parses an unsigned decimal literal (`"25"`, `"25."`, `".5"`,
`"1234.50"`); fails when no digit is present or a non-digit appears. -/
def parseUnsignedChars (l : List Char) : Option ℚ :=
  let ip := l.takeWhile (fun c => c ≠ '.')
  let rest := l.dropWhile (fun c => c ≠ '.')
  match rest with
  | [] => if ip = [] then none else (digitsToNatAux ip 0).map (fun n => (n : ℚ))
  | _ :: fp =>
    if fp.any (fun c => c = '.') then none
    else if ip = [] ∧ fp = [] then none
    else
      match digitsToNatAux ip 0, digitsToNatAux fp 0 with
      | some a, some b =>
        some (mkRat ((a * 10 ^ fp.length + b : ℕ) : ℤ) (10 ^ fp.length))
      | _, _ => none

/-- Whitespace accepted (and stripped) by Python `float` around a literal. -/
def isSpaceChar (c : Char) : Bool :=
  c = ' ' ∨ c = '\t' ∨ c = '\n' ∨ c = '\r'

/-- Python `float(s)` on the decimal forms occurring in this program:
optional surrounding whitespace, an optional sign, digits with an optional
fractional part.  (Exponents and `inf`/`nan` words do not occur in the
spreadsheet data this tool parses and are outside the model.) -/
def parseFloatChars (l : List Char) : Option ℚ :=
  let t := ((l.dropWhile isSpaceChar).reverse.dropWhile isSpaceChar).reverse
  match t with
  | '-' :: rest => (parseUnsignedChars rest).map qNeg
  | '+' :: rest => parseUnsignedChars rest
  | _ => parseUnsignedChars t

/-- `str(x).replace('%', '').replace(',', '')`: removing every `%` and `,`
character, expressed as a character filter. -/
def stripPctChars (l : List Char) : List Char :=
  l.filter (fun c => c ≠ '%' ∧ c ≠ ',')

/-- A Python float as the two call sites of the normaliser can produce it:
a finite value (idealised as a rational) or the IEEE NaN.  A null cell is
the pandas float `nan`; `str(nan)` is `"nan"` and `float("nan")` SUCCEEDS
with NaN — it does not raise. -/
inductive PyFloat where
  | fin (q : ℚ)
  | nan
deriving DecidableEq

/-- `op_func(a, b)` on a possibly-NaN left operand: in Python every
comparison with NaN is `False`, so NaN satisfies no predicate. -/
def Cmp.applyF : Cmp → PyFloat → ℚ → Bool
  | cmp, PyFloat.fin q, thr => cmp.apply q thr
  | _, PyFloat.nan, _ => false

/-- The normalisation expression of `apply_filters` (line 107):
`float(str(x).replace('%', '').replace(',', ''))`, as a partial function
(`none` is a raised `ValueError`).  A numeric cell round-trips through
`str`/`float` to the same value; a null cell (pandas `NaN`) stringifies to
`"nan"` and parses back to NaN without raising — though at this call site
the `pd.notnull` guard returns `False` before the expression ever sees a
null. -/
def applyFiltersNormalize : Cell → Option PyFloat
  | Cell.num q => some (PyFloat.fin q)
  | Cell.str s => (parseFloatChars (stripPctChars s.data)).map PyFloat.fin
  | Cell.null => some PyFloat.nan

/-- The normalisation expression of `validate_filtered_rows` (lines
207-208): the identical
`float(str(val).replace('%', '').replace(',', ''))`.  On a null cell it
SUCCEEDS with NaN, so the validator does not skip such a cell; the NaN
then fails every predicate check. -/
def validateNormalize : Cell → Option PyFloat
  | Cell.num q => some (PyFloat.fin q)
  | Cell.str s => (parseFloatChars (stripPctChars s.data)).map PyFloat.fin
  | Cell.null => some PyFloat.nan

/-- The `matched` dictionary built by `match_columns`: logical column name
to actual header, looked up by first matching key. -/
abbrev ColumnMap := List (String × String)

/-- Python dict lookup `matched[name]` / `name in matched` on the
association list. -/
def lookupCM : ColumnMap → String → Option String
  | [], _ => none
  | p :: rest, x => if x = p.1 then some p.2 else lookupCM rest x

/-- A pandas DataFrame: a header list and rows of cells aligned with it. -/
structure Table where
  headers : List String
  rows : List (List Cell)
deriving DecidableEq

/-- Index of the first occurrence of header `h` in a header list. -/
def hIdx (h : String) : List String → Option ℕ
  | [] => none
  | c :: cs => if c = h then some 0 else (hIdx h cs).map (fun i => i + 1)

/-- The cell of row `r` under header `h` (`row[h]`); `Cell.null` when the
header or the position is absent. -/
def getCellD (hs : List String) (r : List Cell) (h : String) : Cell :=
  match hIdx h hs with
  | some i => r.getD i Cell.null
  | none => Cell.null

/-- One evaluation of the filter lambda of `apply_filters` (lines 106-108):
`op_func(float(str(x).replace('%', '').replace(',', '')), val) if
pd.notnull(x) else False`.  `some b` is a returned boolean, `none` is a
raised `ValueError` (a non-null cell whose text does not parse). -/
def decision (cmp : Cmp) (thr : ℚ) : Cell → Option Bool
  | Cell.null => some false
  | c => (applyFiltersNormalize c).map (fun v => Cmp.applyF cmp v thr)

/-- One iteration of the filter loop of `apply_filters` (lines 102-110) for
a predicated, matched column: the row mask is computed cell by cell and the
rows where it is `True` are kept; if any cell raises (or the column name is
absent, a `KeyError`), the `except` branch reports the error and leaves the
DataFrame unchanged. -/
def filterStep (t : Table) (col : String) (cmp : Cmp) (thr : ℚ) : Table :=
  if col ∈ t.headers then
    if (t.rows.map (fun r => decision cmp thr (getCellD t.headers r col))).any
        (fun o => o.isNone) then t
    else ⟨t.headers,
          t.rows.filter (fun r => decision cmp thr (getCellD t.headers r col) == some true)⟩
  else t

/-- One iteration of the outer loop of `apply_filters` (lines 101-110):
only specs with a predicate and a present mapping filter the running
DataFrame. -/
def phaseStep (m : ColumnMap) (acc : Table) (cd : ColumnSettings) : Table :=
  match cd.filter, lookupCM m cd.column_name with
  | some p, some col => filterStep acc col p.1 p.2
  | _, _ => acc

/-- The whole filter loop of `apply_filters` (lines 101-110): every spec
with a predicate and a present mapping filters the running DataFrame in
declaration order. -/
def filterPhase (defs : List ColumnSettings) (t : Table) (m : ColumnMap) : Table :=
  defs.foldl (phaseStep m) t

/-- `final_cols` of `apply_filters` (line 111): the matched headers in
`column_definitions` order, unmatched specs contributing nothing. -/
def finalCols (defs : List ColumnSettings) (m : ColumnMap) : List String :=
  defs.filterMap (fun cd => lookupCM m cd.column_name)

/-- One row of the column projection `filtered_df[final_cols]`. -/
def projectRow (hs cols : List String) (r : List Cell) : List Cell :=
  cols.map (fun c => getCellD hs r c)

/-- `apply_filters` (lines 99-112): the filter loop followed by the
projection onto `final_cols`. -/
def applyFilters (defs : List ColumnSettings) (t : Table) (m : ColumnMap) : Table :=
  ⟨finalCols defs m,
   (filterPhase defs t m).rows.map
     (projectRow (filterPhase defs t m).headers (finalCols defs m))⟩

/-- Nearest integer to `x`, ties to the even integer: the exact-arithmetic
content of Python's `round` on the two-decimal-scaled value. -/
def roundHalfEvenZ (x : ℚ) : ℤ :=
  let n := Int.floor x
  let r2 : ℤ := 2 * (x.num - n * (x.den : ℤ))
  if r2 < (x.den : ℤ) then n
  else if (x.den : ℤ) < r2 then n + 1
  else if n % 2 = 0 then n else n + 1

/-- Python `round(x, 2)`, idealised over exact rationals: round half to
even at two decimal places. -/
def round2 (q : ℚ) : ℚ := mkRat (roundHalfEvenZ (qMul q 100)) 100

/-- The map of `round_numeric_columns` on one cell: floats are rounded to
two decimals, anything else is returned unchanged. -/
def roundCell : Cell → Cell
  | Cell.num q => Cell.num (round2 q)
  | c => c

/-- Whether a cell is of a numeric kind (a number or a null, pandas `NaN`
being a float): the cells a float/int-dtype column may contain. -/
def isNumCell : Cell → Bool
  | Cell.str _ => false
  | _ => true

/-- Whether column `j` of the table has float/int dtype
(`select_dtypes(include=['float', 'int'])`): pandas infers a numeric dtype
exactly when every cell of the column is numeric or null. -/
def numericFlag (t : Table) (j : ℕ) : Bool :=
  t.rows.all (fun r => isNumCell (r.getD j Cell.null))

/-- `round_numeric_columns` (lines 114-117): every column of numeric dtype
has its float cells rounded to two decimal places; other columns are left
alone.  No row is added, dropped or reordered. -/
def roundNumericColumns (t : Table) : Table :=
  let flags := (List.range t.headers.length).map (fun j => numericFlag t j)
  ⟨t.headers,
   t.rows.map (fun r => List.zipWith (fun f c => if f then roundCell c else c) flags r)⟩

/-- Characters of a string, lower-cased (`s.lower()`). -/
def lowerChars (s : String) : List Char := s.data.map Char.toLower

/-- Whether the first list is an initial segment of the second. -/
def leadsList : List Char → List Char → Bool
  | [], _ => true
  | _ :: _, [] => false
  | a :: as, b :: bs => a == b && leadsList as bs

/-- Whether the first list occurs contiguously inside the second
(Python's substring test `needle in hay`). -/
def subList : List Char → List Char → Bool
  | needle, [] => needle.isEmpty
  | needle, c :: rest => leadsList needle (c :: rest) || subList needle rest

/-- The match test of `match_columns` (line 91):
`col_def.column_name.lower() in c.lower()`. -/
def containsCI (name header : String) : Bool :=
  subList (lowerChars name) (lowerChars header)

/-- `match_columns` (lines 87-97), parametrised by the external
`difflib.get_close_matches` collaborator `suggest`.  Returns the `matched`
dictionary and the list of warnings printed for unmatched specs, each
carrying the fuzzy suggestion; the suggestion is only printed, never
entered into the dictionary. -/
def matchColumns (defs : List ColumnSettings) (headers : List String)
    (suggest : String → List String → Option String) :
    ColumnMap × List (String × Option String) :=
  match defs with
  | [] => ([], [])
  | cd :: rest =>
    let r := matchColumns rest headers suggest
    match headers.find? (fun h => containsCI cd.column_name h) with
    | some h => ((cd.column_name, h) :: r.1, r.2)
    | none => (r.1, (cd.column_name, suggest cd.column_name headers) :: r.2)

/-- The state of `validate_filtered_rows` (lines 195-237): the mutable
locals `all_valid`, the printed per-row filter failures, `changed_values`
(flattened to triples; the recorded `original_val` is the parsed, possibly
NaN, value) and `columns_with_rounded_differences`. -/
structure ValidationReport where
  all_valid : Bool
  violations : List (String × ℕ × Cell)
  changed_values : List (String × ℕ × PyFloat)
  rounded_cols : List String
deriving DecidableEq

/-- `float(val)` as used on line 215: no `%`/`,` stripping; raises on a
string that is not a bare decimal literal; on a null cell (the float
`nan`) it succeeds with NaN. -/
def pyFloatNoStrip : Cell → Option PyFloat
  | Cell.num q => some (PyFloat.fin q)
  | Cell.str s => (parseFloatChars s.data).map PyFloat.fin
  | Cell.null => some PyFloat.nan

/-- `math.isclose(a, b, abs_tol=tol)` with the default `rel_tol=1e-9` on
finite values: `|a - b| ≤ max(rel_tol * max(|a|, |b|), abs_tol)`. -/
def pyIsClose (a b tol : ℚ) : Bool :=
  decide (qAbs (qSub a b) ≤ max (qMul (mkRat 1 1000000000) (max (qAbs a) (qAbs b))) tol)

/-- `math.isclose` on possibly-NaN operands: any comparison involving NaN
is `False`, so `isclose(nan, nan)` is `False`. -/
def pyIsCloseF : PyFloat → PyFloat → ℚ → Bool
  | PyFloat.fin a, PyFloat.fin b, tol => pyIsClose a b tol
  | _, _, _ => false

/-- The body of the validation loop (lines 205-220) for one cell: parse the
stripped text (on failure the `except` branch skips the cell); record a
filter violation and clear `all_valid` when the predicate fails; then
compare `float(val)` with the parsed value (`original_val`), recording a
changed value and flagging the column when they are not close — a raise in
`float(val)` skips only that second part. -/
def validateCellStep (specName colName : String) (cmp : Cmp) (thr tol : ℚ)
    (st : ValidationReport) (idx : ℕ) (val : Cell) : ValidationReport :=
  match validateNormalize val with
  | none => st
  | some v =>
    let st1 := if Cmp.applyF cmp v thr then st
      else ⟨false, st.violations ++ [(specName, idx, val)], st.changed_values, st.rounded_cols⟩
    match pyFloatNoStrip val with
    | none => st1
    | some v2 =>
      if pyIsCloseF v2 v tol then st1
      else ⟨st1.all_valid, st1.violations,
            st1.changed_values ++ [(colName, idx, v)],
            if colName ∈ st1.rounded_cols then st1.rounded_cols
            else st1.rounded_cols ++ [colName]⟩

/-- The row loop `for idx, val in df_filtered[col_name].items()` (lines
205-220), with positional row indices. -/
def validateColumn (specName colName : String) (cmp : Cmp) (thr tol : ℚ) :
    ℕ → List Cell → ValidationReport → ValidationReport
  | _, [], st => st
  | i, v :: vs, st =>
    validateColumn specName colName cmp thr tol (i + 1) vs
      (validateCellStep specName colName cmp thr tol st i v)

/-- The cells of column `col` of a table, row by row. -/
def columnCells (t : Table) (col : String) : List Cell :=
  t.rows.map (fun r => getCellD t.headers r col)

/-- One iteration of the outer validation loop (lines 200-204): only specs
with a predicate and a present mapping are checked. -/
def validateSpec (t : Table) (m : ColumnMap) (tol : ℚ)
    (st : ValidationReport) (cd : ColumnSettings) : ValidationReport :=
  match cd.filter, lookupCM m cd.column_name with
  | some p, some col => validateColumn cd.column_name col p.1 p.2 tol 0 (columnCells t col) st
  | _, _ => st

/-- `validate_filtered_rows` (lines 195-237) as a report value; the Python
function returns `all_valid` and prints the rest. -/
def validate (defs : List ColumnSettings) (t : Table) (m : ColumnMap) (tol : ℚ) :
    ValidationReport :=
  defs.foldl (validateSpec t m tol) ⟨true, [], [], []⟩

/-- The `(col_idx, col_def)` pairs styled by `apply_styles` (lines
136-138): `enumerate(column_definitions, 1)` restricted to matched specs,
so each styled worksheet column index is the spec's 1-based position in the
full list. -/
def styleAppsFrom (m : ColumnMap) : ℕ → List ColumnSettings → List (ℕ × ColumnSettings)
  | _, [] => []
  | i, cd :: rest =>
    if (lookupCM m cd.column_name).isSome
    then (i, cd) :: styleAppsFrom m (i + 1) rest
    else styleAppsFrom m (i + 1) rest

/-- `apply_styles`' addressing of worksheet columns (lines 136-139). -/
def styleApplications (defs : List ColumnSettings) (m : ColumnMap) :
    List (ℕ × ColumnSettings) :=
  styleAppsFrom m 1 defs

/-- The 1-based position, among the output columns written by
`save_filtered_df`, of the column holding the data of the spec at 0-based
position `i` of `defs`: the number of matched specs up to and including it
(`final_cols` keeps matched specs in declaration order). -/
def dataColOfSpec (defs : List ColumnSettings) (m : ColumnMap) (i : ℕ) : ℕ :=
  (finalCols (defs.take (i + 1)) m).length

/-- `qAdd` computes rational addition. -/
theorem qAdd_eq (a b : ℚ) : qAdd a b = a + b := (Rat.add_def' a b).symm

/-- `qMul` computes rational multiplication. -/
theorem qMul_eq (a b : ℚ) : qMul a b = a * b := (Rat.mul_eq_mkRat a b).symm

/-- `qNeg` computes rational negation. -/
theorem qNeg_eq (a : ℚ) : qNeg a = -a := by
  have h : qNeg a = mkRat (-a).num (-a).den := by
    rw [qNeg, Rat.neg_num, Rat.neg_den]
  rw [h, Rat.mkRat_self]

/-- `qSub` computes rational subtraction. -/
theorem qSub_eq (a b : ℚ) : qSub a b = a - b := by
  rw [qSub, qAdd_eq, qNeg_eq, ← sub_eq_add_neg]

/-- `qAbs` computes the rational absolute value. -/
theorem qAbs_eq (a : ℚ) : qAbs a = |a| := by
  rcases le_or_lt 0 a with h | h
  · rw [abs_of_nonneg h, qAbs, abs_of_nonneg (Rat.num_nonneg.mpr h), Rat.mkRat_self]
  · have hn : a.num < 0 := by
      by_contra hc
      exact absurd (Rat.num_nonneg.mp (not_lt.mp hc)) (not_le.mpr h)
    rw [abs_of_neg h, qAbs, abs_of_neg hn, ← qNeg, qNeg_eq]

/-- Whether a (predicated, matched) spec can filter without raising on
table `t`: its matched column exists and every cell of that column is null
or parseable.  Unpredicated or unmatched specs are vacuously clean. -/
def cleanForB (t : Table) (m : ColumnMap) (cd : ColumnSettings) : Bool :=
  match cd.filter, lookupCM m cd.column_name with
  | some p, some col =>
    decide (col ∈ t.headers) &&
      t.rows.all (fun r => (decision p.1 p.2 (getCellD t.headers r col)).isSome)
  | _, _ => true

/-- Whether every spec of `defs` is clean on `t` (no filter raises). -/
def cleanTableB (defs : List ColumnSettings) (t : Table) (m : ColumnMap) : Bool :=
  defs.all (cleanForB t m)

/-- Whether every matched header of the map exists in the table (always
true for maps built by `match_columns` from the table's own headers). -/
def matchedOkB (t : Table) (m : ColumnMap) : Bool :=
  m.all (fun p => decide (p.2 ∈ t.headers))

/-- The invariant of the spec's DATA MODEL section: every row of the table
satisfies, for every spec with a predicate and a matched column, the
predicate of the normalised cell value. -/
def filterInvariant (T : Table) (defs : List ColumnSettings) (m : ColumnMap) : Prop :=
  ∀ r ∈ T.rows, ∀ cd ∈ defs, ∀ p : Cmp × ℚ, cd.filter = some p →
    ∀ col, lookupCM m cd.column_name = some col →
      ∃ q, applyFiltersNormalize (getCellD T.headers r col) = some (PyFloat.fin q) ∧
        p.1.apply q p.2 = true

/-- No cell of a predicated, matched column of `t` whose stripped text
parses as a Python float — a null cell parsing to NaN, which satisfies no
predicate — violates its governing predicate (the condition
`validate_filtered_rows` checks; unparseable text is skipped). -/
def noParseableViolation (defs : List ColumnSettings) (t : Table) (m : ColumnMap) : Prop :=
  ∀ cd ∈ defs, ∀ p : Cmp × ℚ, cd.filter = some p →
    ∀ col, lookupCM m cd.column_name = some col →
      ∀ c ∈ columnCells t col, ∀ v : PyFloat, validateNormalize c = some v →
        p.1.applyF v p.2 = true

theorem lookupCM_mem {m : ColumnMap} {x h : String} (hl : lookupCM m x = some h) :
    (x, h) ∈ m := by
  induction m with
  | nil => simp [lookupCM] at hl
  | cons p rest ih =>
    rw [lookupCM] at hl
    by_cases hx : x = p.1
    · rw [if_pos hx] at hl
      injection hl with hh
      subst hh; subst hx
      exact List.mem_cons_self _ _
    · rw [if_neg hx] at hl
      exact List.mem_cons_of_mem _ (ih hl)

theorem getCellD_map_self (cols : List String) (f : String → Cell) :
    ∀ c ∈ cols, getCellD cols (cols.map f) c = f c := by
  induction cols with
  | nil => intro c hc; exact absurd hc (List.not_mem_nil c)
  | cons x xs ih =>
    intro c hc
    by_cases hx : x = c
    · subst hx
      simp [getCellD, hIdx]
    · have hc' : c ∈ xs := by
        rcases List.mem_cons.mp hc with h1 | h1
        · exact absurd h1.symm hx
        · exact h1
      have h1 := ih c hc'
      simp only [getCellD, hIdx, if_neg hx, List.map_cons] at h1 ⊢
      cases hi : hIdx c xs with
      | none => simpa [hi] using h1
      | some i => simpa [hi, List.getD_cons_succ] using h1

theorem projectRow_get {hs cols : List String} {r : List Cell} {c : String}
    (hc : c ∈ cols) :
    getCellD cols (projectRow hs cols r) c = getCellD hs r c :=
  getCellD_map_self cols (fun c => getCellD hs r c) c hc

theorem projectRow_self (cols : List String) (f : String → Cell) :
    projectRow cols cols (cols.map f) = cols.map f := by
  unfold projectRow
  exact List.map_congr_left (fun c hc => getCellD_map_self cols f c hc)

theorem filterStep_headers (t : Table) (col : String) (cmp : Cmp) (thr : ℚ) :
    (filterStep t col cmp thr).headers = t.headers := by
  unfold filterStep
  split <;> [skip; rfl]
  split <;> rfl

theorem filterStep_sublist (t : Table) (col : String) (cmp : Cmp) (thr : ℚ) :
    (filterStep t col cmp thr).rows.Sublist t.rows := by
  unfold filterStep
  split
  · split
    · exact List.Sublist.refl _
    · exact List.filter_sublist _
  · exact List.Sublist.refl _

theorem filterStep_of_err {t : Table} {col : String} {cmp : Cmp} {thr : ℚ}
    (hcol : col ∈ t.headers)
    (he : ∃ r ∈ t.rows, decision cmp thr (getCellD t.headers r col) = none) :
    filterStep t col cmp thr = t := by
  unfold filterStep
  rw [if_pos hcol]
  rcases he with ⟨r, hr, hd⟩
  have : (t.rows.map (fun r => decision cmp thr (getCellD t.headers r col))).any
      (fun o => o.isNone) = true := by
    rw [List.any_eq_true]
    exact ⟨none, List.mem_map.mpr ⟨r, hr, hd⟩, rfl⟩
  rw [if_pos this]

theorem filterStep_of_ok {t : Table} {col : String} {cmp : Cmp} {thr : ℚ}
    (hcol : col ∈ t.headers)
    (he : ∀ r ∈ t.rows, (decision cmp thr (getCellD t.headers r col)).isSome) :
    filterStep t col cmp thr =
      ⟨t.headers,
       t.rows.filter (fun r => decision cmp thr (getCellD t.headers r col) == some true)⟩ := by
  unfold filterStep
  rw [if_pos hcol]
  have : (t.rows.map (fun r => decision cmp thr (getCellD t.headers r col))).any
      (fun o => o.isNone) = false := by
    rw [List.any_eq_false]
    intro o ho
    rcases List.mem_map.mp ho with ⟨r, hr, rfl⟩
    simpa [Option.isNone_iff_eq_none] using
      Option.isSome_iff_ne_none.mp (he r hr)
  rw [this]
  simp

theorem filterStep_id {t : Table} {col : String} {cmp : Cmp} {thr : ℚ}
    (hcol : col ∈ t.headers)
    (hp : ∀ r ∈ t.rows, decision cmp thr (getCellD t.headers r col) = some true) :
    filterStep t col cmp thr = t := by
  rw [filterStep_of_ok hcol (fun r hr => by rw [hp r hr]; rfl)]
  have : t.rows.filter
      (fun r => decision cmp thr (getCellD t.headers r col) == some true) = t.rows := by
    rw [List.filter_eq_self]
    intro r hr
    rw [hp r hr]
    rfl
  rw [this]

theorem phaseStep_headers (m : ColumnMap) (t : Table) (cd : ColumnSettings) :
    (phaseStep m t cd).headers = t.headers := by
  unfold phaseStep
  split
  · apply filterStep_headers
  · rfl

theorem phaseStep_sublist (m : ColumnMap) (t : Table) (cd : ColumnSettings) :
    (phaseStep m t cd).rows.Sublist t.rows := by
  unfold phaseStep
  split
  · apply filterStep_sublist
  · exact List.Sublist.refl _

theorem filterPhase_headers (defs : List ColumnSettings) (t : Table) (m : ColumnMap) :
    (filterPhase defs t m).headers = t.headers := by
  induction defs generalizing t with
  | nil => rfl
  | cons cd rest ih =>
    show (filterPhase rest (phaseStep m t cd) m).headers = t.headers
    rw [ih (phaseStep m t cd), phaseStep_headers]

theorem filterPhase_sublist (defs : List ColumnSettings) (t : Table) (m : ColumnMap) :
    (filterPhase defs t m).rows.Sublist t.rows := by
  induction defs generalizing t with
  | nil => exact List.Sublist.refl _
  | cons cd rest ih =>
    exact (ih (phaseStep m t cd)).trans (phaseStep_sublist m t cd)

theorem cleanForB_mono {t t' : Table} {m : ColumnMap} {cd : ColumnSettings}
    (hh : t'.headers = t.headers) (hs : ∀ r ∈ t'.rows, r ∈ t.rows)
    (hc : cleanForB t m cd = true) : cleanForB t' m cd = true := by
  unfold cleanForB at hc ⊢
  cases hf : cd.filter with
  | none => simp [hf]
  | some p =>
    cases hl : lookupCM m cd.column_name with
    | none => simp [hf, hl]
    | some col =>
      simp only [hf, hl, Bool.and_eq_true, decide_eq_true_eq, List.all_eq_true] at hc ⊢
      refine ⟨by rw [hh]; exact hc.1, fun r hr => ?_⟩
      rw [hh]
      exact hc.2 r (hs r hr)

theorem filterPhase_pass {defs : List ColumnSettings} {t : Table} {m : ColumnMap}
    (h : ∀ cd ∈ defs, cleanForB t m cd = true) :
    ∀ r ∈ (filterPhase defs t m).rows, ∀ cd ∈ defs, ∀ p : Cmp × ℚ, ∀ col : String,
      cd.filter = some p → lookupCM m cd.column_name = some col →
      decision p.1 p.2 (getCellD t.headers r col) = some true := by
  induction defs generalizing t with
  | nil => intro r hr cd hcd; exact absurd hcd (List.not_mem_nil cd)
  | cons cd0 rest ih =>
    intro r hr cd hcd p col hp hcol
    have hstep_h := phaseStep_headers m t cd0
    have hstep_s := phaseStep_sublist m t cd0
    have hrest : ∀ cd' ∈ rest, cleanForB (phaseStep m t cd0) m cd' = true := by
      intro cd' h'
      exact cleanForB_mono hstep_h (fun r' hr' => hstep_s.subset hr')
        (h cd' (List.mem_cons_of_mem _ h'))
    have hr' : r ∈ (filterPhase rest (phaseStep m t cd0) m).rows := hr
    rcases List.mem_cons.mp hcd with rfl | hcd'
    · -- the head spec itself: its own step filtered the rows
      have hclean := h cd (List.mem_cons_self _ _)
      unfold cleanForB at hclean
      rw [hp, hcol] at hclean
      simp only [Bool.and_eq_true, decide_eq_true_eq, List.all_eq_true] at hclean
      have hmem : r ∈ (phaseStep m t cd).rows :=
        (filterPhase_sublist rest (phaseStep m t cd) m).subset hr'
      have hstep : phaseStep m t cd = filterStep t col p.1 p.2 := by
        unfold phaseStep
        rw [hp, hcol]
      rw [hstep, filterStep_of_ok hclean.1 hclean.2] at hmem
      have := List.mem_filter.mp hmem
      have hbeq := this.2
      rwa [beq_iff_eq] at hbeq
    · -- a later spec: induction on the remaining fold
      have := ih hrest r hr' cd hcd' p col hp hcol
      rwa [hstep_h] at this

theorem decision_some_true {cmp : Cmp} {thr : ℚ} {c : Cell}
    (h : decision cmp thr c = some true) :
    ∃ q, applyFiltersNormalize c = some (PyFloat.fin q) ∧ cmp.apply q thr = true := by
  cases c with
  | null => simp [decision] at h
  | num q =>
    refine ⟨q, rfl, ?_⟩
    simpa [decision, applyFiltersNormalize, Cmp.applyF] using h
  | str s =>
    simp only [decision, applyFiltersNormalize] at h ⊢
    cases hp : parseFloatChars (stripPctChars s.data) with
    | none => rw [hp] at h; simp at h
    | some q =>
      rw [hp] at h
      refine ⟨q, rfl, ?_⟩
      simpa [Cmp.applyF] using h

theorem applyFilters_def (defs : List ColumnSettings) (t : Table) (m : ColumnMap) :
    applyFilters defs t m
      = ⟨finalCols defs m,
         (filterPhase defs t m).rows.map (projectRow t.headers (finalCols defs m))⟩ := by
  unfold applyFilters
  rw [filterPhase_headers]

theorem applyFilters_invariant {defs : List ColumnSettings} {t : Table} {m : ColumnMap}
    (hc : cleanTableB defs t m = true) :
    filterInvariant (applyFilters defs t m) defs m := by
  intro r' hr' cd hcd p hp col hcol
  simp only [applyFilters] at hr' ⊢
  obtain ⟨r, hr, rfl⟩ := List.mem_map.mp hr'
  have hclean : ∀ cd' ∈ defs, cleanForB t m cd' = true := by
    intro cd' h'
    exact List.all_eq_true.mp hc cd' h'
  have hdec := filterPhase_pass hclean r hr cd hcd p col hp hcol
  have hfc : col ∈ finalCols defs m := List.mem_filterMap.mpr ⟨cd, hcd, hcol⟩
  rw [projectRow_get hfc, filterPhase_headers]
  exact decision_some_true hdec

theorem filterPhase_id {defs : List ColumnSettings} {t : Table} {m : ColumnMap}
    (h : ∀ cd ∈ defs, ∀ p : Cmp × ℚ, ∀ col : String,
      cd.filter = some p → lookupCM m cd.column_name = some col →
      col ∈ t.headers ∧
        ∀ r ∈ t.rows, decision p.1 p.2 (getCellD t.headers r col) = some true) :
    filterPhase defs t m = t := by
  induction defs with
  | nil => rfl
  | cons cd rest ih =>
    show filterPhase rest (phaseStep m t cd) m = t
    have hstep : phaseStep m t cd = t := by
      cases hf : cd.filter with
      | none => unfold phaseStep; rw [hf]
      | some p =>
        cases hl : lookupCM m cd.column_name with
        | none => unfold phaseStep; rw [hf, hl]
        | some col =>
          unfold phaseStep
          rw [hf, hl]
          obtain ⟨h1, h2⟩ := h cd (List.mem_cons_self _ _) p col hf hl
          exact filterStep_id h1 h2
    rw [hstep]
    exact ih (fun cd' h' p col hp hcol => h cd' (List.mem_cons_of_mem _ h') p col hp hcol)

theorem applyFilters_idem {defs : List ColumnSettings} {t : Table} {m : ColumnMap}
    (hc : cleanTableB defs t m = true) :
    applyFilters defs (applyFilters defs t m) m = applyFilters defs t m := by
  have hclean : ∀ cd' ∈ defs, cleanForB t m cd' = true := by
    intro cd' h'
    exact List.all_eq_true.mp hc cd' h'
  have hphase : filterPhase defs (applyFilters defs t m) m = applyFilters defs t m := by
    apply filterPhase_id
    intro cd hcd p col hp hcol
    have hfc : col ∈ finalCols defs m := List.mem_filterMap.mpr ⟨cd, hcd, hcol⟩
    refine ⟨hfc, ?_⟩
    intro r' hr'
    simp only [applyFilters] at hr' ⊢
    obtain ⟨r, hr, rfl⟩ := List.mem_map.mp hr'
    rw [projectRow_get hfc, filterPhase_headers]
    exact filterPhase_pass hclean r hr cd hcd p col hp hcol
  rw [applyFilters_def defs (applyFilters defs t m) m, hphase]
  have hrows : (applyFilters defs t m).rows.map
      (projectRow (applyFilters defs t m).headers (finalCols defs m))
      = (applyFilters defs t m).rows := by
    have hproj : ∀ r' ∈ (applyFilters defs t m).rows,
        projectRow (applyFilters defs t m).headers (finalCols defs m) r' = r' := by
      intro r' hr'
      simp only [applyFilters] at hr' ⊢
      obtain ⟨r, hr, rfl⟩ := List.mem_map.mp hr'
      exact projectRow_self (finalCols defs m)
        (fun c => getCellD (filterPhase defs t m).headers r c)
    rw [List.map_congr_left hproj]
    exact List.map_id _
  rw [hrows]
  rfl

/-- Whether a single cell passes the validator's predicate re-check: true
when its stripped text fails to parse (the cell is skipped) or when the
parsed value satisfies the predicate. -/
def cellOK (cmp : Cmp) (thr : ℚ) (c : Cell) : Bool :=
  match validateNormalize c with
  | some v => cmp.applyF v thr
  | none => true

/-- Whether one spec's column passes the validator's predicate re-check. -/
def specOK (t : Table) (m : ColumnMap) (cd : ColumnSettings) : Bool :=
  match cd.filter, lookupCM m cd.column_name with
  | some p, some col => (columnCells t col).all (cellOK p.1 p.2)
  | _, _ => true

theorem validateCellStep_all_valid (sn cn : String) (cmp : Cmp) (thr tol : ℚ)
    (st : ValidationReport) (i : ℕ) (v : Cell) :
    (validateCellStep sn cn cmp thr tol st i v).all_valid
      = (st.all_valid && cellOK cmp thr v) := by
  unfold validateCellStep cellOK
  cases hn : validateNormalize v with
  | none => simp
  | some v0 =>
    cases hf : pyFloatNoStrip v with
    | none =>
      cases ha : Cmp.applyF cmp v0 thr <;> simp [ha]
    | some v2 =>
      cases ha : Cmp.applyF cmp v0 thr <;> cases hcl : pyIsCloseF v2 v0 tol <;>
        simp [ha, hcl]

theorem validateColumn_all_valid (sn cn : String) (cmp : Cmp) (thr tol : ℚ) :
    ∀ (vs : List Cell) (i : ℕ) (st : ValidationReport),
    (validateColumn sn cn cmp thr tol i vs st).all_valid
      = (st.all_valid && vs.all (cellOK cmp thr)) := by
  intro vs
  induction vs with
  | nil => intro i st; simp [validateColumn]
  | cons v rest ih =>
    intro i st
    show (validateColumn sn cn cmp thr tol (i + 1) rest
        (validateCellStep sn cn cmp thr tol st i v)).all_valid = _
    rw [ih, validateCellStep_all_valid]
    simp [Bool.and_assoc]

theorem validateSpec_all_valid (t : Table) (m : ColumnMap) (tol : ℚ)
    (st : ValidationReport) (cd : ColumnSettings) :
    (validateSpec t m tol st cd).all_valid = (st.all_valid && specOK t m cd) := by
  unfold validateSpec specOK
  cases hf : cd.filter with
  | none => simp
  | some p =>
    cases hl : lookupCM m cd.column_name with
    | none => simp
    | some col => exact validateColumn_all_valid _ _ _ _ _ _ _ _

theorem validate_fold_all_valid (defs : List ColumnSettings) (t : Table)
    (m : ColumnMap) (tol : ℚ) :
    ∀ st : ValidationReport,
    (defs.foldl (validateSpec t m tol) st).all_valid
      = (st.all_valid && defs.all (specOK t m)) := by
  induction defs with
  | nil => intro st; simp
  | cons cd rest ih =>
    intro st
    rw [List.foldl_cons, ih, validateSpec_all_valid]
    simp [Bool.and_assoc]

theorem validate_all_valid (defs : List ColumnSettings) (t : Table)
    (m : ColumnMap) (tol : ℚ) :
    (validate defs t m tol).all_valid = defs.all (specOK t m) := by
  rw [validate, validate_fold_all_valid]
  rfl

theorem cellOK_iff (cmp : Cmp) (thr : ℚ) (c : Cell) :
    cellOK cmp thr c = true ↔
      ∀ v : PyFloat, validateNormalize c = some v → cmp.applyF v thr = true := by
  unfold cellOK
  cases hn : validateNormalize c with
  | none => simp
  | some v => simp

theorem specOK_iff (t : Table) (m : ColumnMap) (cd : ColumnSettings) :
    specOK t m cd = true ↔
      ∀ p : Cmp × ℚ, cd.filter = some p →
        ∀ col, lookupCM m cd.column_name = some col →
          ∀ c ∈ columnCells t col, ∀ v : PyFloat, validateNormalize c = some v →
            p.1.applyF v p.2 = true := by
  unfold specOK
  cases hf : cd.filter with
  | none => simp
  | some p =>
    cases hl : lookupCM m cd.column_name with
    | none => simp
    | some col =>
      rw [List.all_eq_true]
      constructor
      · intro h p' hp' col' hcol' c hc v hv
        injection hp' with hp'
        injection hcol' with hcol'
        subst hp'; subst hcol'
        exact (cellOK_iff p.1 p.2 c).mp (h c hc) v hv
      · intro h c hc
        exact (cellOK_iff p.1 p.2 c).mpr (fun v hv => h p rfl col rfl c hc v hv)

theorem validate_all_valid_iff (defs : List ColumnSettings) (t : Table)
    (m : ColumnMap) (tol : ℚ) :
    (validate defs t m tol).all_valid = true ↔ noParseableViolation defs t m := by
  rw [validate_all_valid, List.all_eq_true]
  unfold noParseableViolation
  constructor
  · intro h cd hcd p hp col hcol c hc v hv
    exact (specOK_iff t m cd).mp (h cd hcd) p hp col hcol c hc v hv
  · intro h cd hcd
    exact (specOK_iff t m cd).mpr (fun p hp col hcol c hc v hv =>
      h cd hcd p hp col hcol c hc v hv)

theorem matchColumns_keys (defs : List ColumnSettings) (headers : List String)
    (suggest : String → List String → Option String) (x : String)
    (hx : x ∉ defs.map ColumnSettings.column_name) :
    lookupCM (matchColumns defs headers suggest).1 x = none := by
  induction defs with
  | nil => rfl
  | cons cd rest ih =>
    have hx1 : x ≠ cd.column_name := fun h =>
      hx (List.mem_map.mpr ⟨cd, List.mem_cons_self _ _, h.symm⟩)
    have hx2 : x ∉ rest.map ColumnSettings.column_name := fun h => by
      rcases List.mem_map.mp h with ⟨cd', h', e⟩
      exact hx (List.mem_map.mpr ⟨cd', List.mem_cons_of_mem _ h', e⟩)
    cases hfind : headers.find? (fun h => containsCI cd.column_name h) with
    | some h0 =>
      simp only [matchColumns, hfind]
      rw [lookupCM, if_neg hx1]
      exact ih hx2
    | none =>
      simp only [matchColumns, hfind]
      exact ih hx2

theorem matchColumns_lookup (defs : List ColumnSettings) (headers : List String)
    (suggest : String → List String → Option String) :
    ∀ cd ∈ defs, (defs.map ColumnSettings.column_name).Nodup →
    lookupCM (matchColumns defs headers suggest).1 cd.column_name
        = headers.find? (fun h => containsCI cd.column_name h) ∧
      (headers.find? (fun h => containsCI cd.column_name h) = none →
        (cd.column_name, suggest cd.column_name headers)
          ∈ (matchColumns defs headers suggest).2) := by
  induction defs with
  | nil => intro cd hcd; exact absurd hcd (List.not_mem_nil cd)
  | cons cd0 rest ih =>
    intro cd hcd hnd
    have hnd' : (rest.map ColumnSettings.column_name).Nodup := (List.nodup_cons.mp hnd).2
    have hnotin : cd0.column_name ∉ rest.map ColumnSettings.column_name :=
      (List.nodup_cons.mp hnd).1
    rcases List.mem_cons.mp hcd with rfl | hcd'
    · cases hfind : headers.find? (fun h => containsCI cd.column_name h) with
      | some h0 =>
        refine ⟨?_, ?_⟩
        · simp only [matchColumns, hfind]
          rw [lookupCM, if_pos rfl]
        · intro hnone
          simp at hnone
      | none =>
        refine ⟨?_, ?_⟩
        · simp only [matchColumns, hfind]
          exact matchColumns_keys rest headers suggest _ hnotin
        · intro _
          simp only [matchColumns, hfind]
          exact List.mem_cons_self _ _
    · have hne : cd.column_name ≠ cd0.column_name := by
        intro h
        exact hnotin (h ▸ List.mem_map.mpr ⟨cd, hcd', rfl⟩)
      obtain ⟨ih1, ih2⟩ := ih cd hcd' hnd'
      cases hfind : headers.find? (fun h => containsCI cd0.column_name h) with
      | some h0 =>
        refine ⟨?_, ?_⟩
        · simp only [matchColumns, hfind]
          rw [lookupCM, if_neg hne]
          exact ih1
        · intro hnone
          simp only [matchColumns, hfind]
          exact ih2 hnone
      | none =>
        refine ⟨?_, ?_⟩
        · simp only [matchColumns, hfind]
          exact ih1
        · intro hnone
          simp only [matchColumns, hfind]
          exact List.mem_cons_of_mem _ (ih2 hnone)

theorem styleAppsFrom_mem (m : ColumnMap) (defs : List ColumnSettings) :
    ∀ (start i : ℕ) (cd : ColumnSettings), defs.get? i = some cd →
      (lookupCM m cd.column_name).isSome = true →
      (start + i, cd) ∈ styleAppsFrom m start defs := by
  induction defs with
  | nil => intro start i cd h; simp at h
  | cons cd0 rest ih =>
    intro start i cd hget hm
    cases i with
    | zero =>
      rw [List.get?_cons_zero] at hget
      injection hget with hget
      subst hget
      simp [styleAppsFrom, hm]
    | succ j =>
      rw [List.get?_cons_succ] at hget
      have hrec := ih (start + 1) j cd hget hm
      have harith : start + (j + 1) = start + 1 + j := by omega
      rw [harith]
      by_cases h0 : (lookupCM m cd0.column_name).isSome = true
      · simp only [styleAppsFrom, if_pos h0]
        exact List.mem_cons_of_mem _ hrec
      · simp only [styleAppsFrom, if_neg h0]
        exact hrec

theorem length_filterMap_le_self {α β : Type} (f : α → Option β) (l : List α) :
    (l.filterMap f).length ≤ l.length := by
  induction l with
  | nil => simp
  | cons x xs ih =>
    cases hf : f x with
    | none => rw [List.filterMap_cons_none hf]; exact Nat.le_succ_of_le ih
    | some b => rw [List.filterMap_cons_some hf]; exact Nat.succ_le_succ ih

theorem length_filterMap_eq_iff {α β : Type} (f : α → Option β) (l : List α) :
    (l.filterMap f).length = l.length ↔ ∀ x ∈ l, (f x).isSome = true := by
  induction l with
  | nil => simp
  | cons x xs ih =>
    cases hf : f x with
    | none =>
      rw [List.filterMap_cons_none hf]
      constructor
      · intro h
        have := length_filterMap_le_self f xs
        rw [List.length_cons] at h
        omega
      · intro h
        have := h x (List.mem_cons_self _ _)
        rw [hf] at this
        cases this
    | some b =>
      rw [List.filterMap_cons_some hf]
      simp only [List.length_cons, Nat.succ.injEq, ih, List.mem_cons]
      constructor
      · intro h y hy
        rcases hy with rfl | hy
        · rw [hf]; rfl
        · exact h y hy
      · intro h y hy
        exact h y (Or.inr hy)

/-- The default tolerance of `validate_filtered_rows` (`tolerance=1e-3`). -/
def defaultTol : ℚ := mkRat 1 1000

/-- A map matching only the `"No. Yrs"` spec to an identically named header. -/
def mNY : ColumnMap := [("No. Yrs", "No. Yrs")]

/-- A table whose predicated column holds a failing numeric cell and an
unparseable text cell. -/
def tNA : Table := ⟨["No. Yrs"], [[Cell.num 10], [Cell.str "N/A"]]⟩

/-- The spec's scenario column `[30, 25, 10, "N/A"]` with `"N/A"` as a
literal string cell. -/
def tScenarioStr : Table :=
  ⟨["No. Yrs"], [[Cell.num 30], [Cell.num 25], [Cell.num 10], [Cell.str "N/A"]]⟩

/-- The spec's scenario column with the `"N/A"` cell as a null — what
`pd.read_excel` produces for an `"N/A"` spreadsheet cell, `"N/A"` being in
pandas' default `na_values`. -/
def tScenarioNull : Table :=
  ⟨["No. Yrs"], [[Cell.num 30], [Cell.num 25], [Cell.num 10], [Cell.null]]⟩

/-- A single cell 25.0049 in the `"No. Yrs"` column. -/
def tBoundary : Table := ⟨["No. Yrs"], [[Cell.num (mkRat 250049 10000)]]⟩

/-- A single cell 30.0049 in the `"No. Yrs"` column. -/
def tDrift : Table := ⟨["No. Yrs"], [[Cell.num (mkRat 300049 10000)]]⟩

/-- A two-column table on which filtering is not idempotent: the `"N/A"`
makes the `"No. Yrs"` filter raise and be skipped, and the row carrying it
is dropped by the `"Div. Yield"` filter instead. -/
def tTwoCol : Table :=
  ⟨["No. Yrs", "Div. Yield"],
   [[Cell.num 10, Cell.num 5], [Cell.str "N/A", Cell.num 1]]⟩

/-- The map for `tTwoCol`. -/
def mTwoCol : ColumnMap := [("No. Yrs", "No. Yrs"), ("Div. Yield", "Div. Yield")]

/-- A map matching only the `"Price"` spec. -/
def mPrice : ColumnMap := [("Price", "Price")]

/-- A one-row clean table used to instantiate conditional theorems. -/
def tCleanW : Table := ⟨["No. Yrs"], [[Cell.num 30]]⟩

/-- A filtered table holding a null cell in the predicated `"No. Yrs"`
column — reachable as validator input via the skip-on-raise path (an
unparseable string elsewhere in the column lets null rows survive). -/
def tNullRow : Table := ⟨["No. Yrs"], [[Cell.null]]⟩

/-- C1, counterexample: the invariant is NOT established by `apply_filters`
as claimed.  On `tNA` the `"No. Yrs"` filter raises on the `"N/A"` cell, is
skipped wholesale, and the surviving row `[10]` violates the `> 25`
predicate in the final output. -/
theorem C1_counterexample :
    ¬ filterInvariant (applyFilters column_definitions tNA mNY) column_definitions mNY := by
  intro h
  have hmem : [Cell.num 10] ∈ (applyFilters column_definitions tNA mNY).rows := by decide
  have hspec : (⟨"No. Yrs", some (Cmp.gt, 25), some ⟨none, true, none⟩, none⟩ : ColumnSettings)
      ∈ column_definitions := by decide
  obtain ⟨q, hq, happ⟩ := h [Cell.num 10] hmem _ hspec (Cmp.gt, 25) rfl "No. Yrs" (by decide)
  have hcell : getCellD (applyFilters column_definitions tNA mNY).headers
      [Cell.num 10] "No. Yrs" = Cell.num 10 := by decide
  rw [hcell] at hq
  injection hq with hq
  injection hq with hq
  subst hq
  exact absurd happ (by decide)

/-- C1 (amended): (a) whenever every predicated, matched column exists and
contains only null-or-parseable cells — so that no filter raises — every
row of the `apply_filters` output satisfies every predicated, matched
spec's predicate on the normalised cell value; (b) unconditionally,
`validate_filtered_rows` returns `all_valid = true` exactly when no cell
of a predicated, matched column whose stripped text parses as a float
violates its governing predicate — where a null cell stringifies to
`"nan"` and parses to NaN, which satisfies no predicate and so counts as a
violation, while unparseable text is skipped; (c) concretely, a filtered
table holding a null and an unparseable string in the predicated column
validates to `all_valid = false` (the null is the violation, the string is
skipped). -/
theorem C1_invariant_and_validator :
    (∀ (t : Table) (m : ColumnMap), cleanTableB column_definitions t m = true →
      filterInvariant (applyFilters column_definitions t m) column_definitions m) ∧
    (∀ (t : Table) (m : ColumnMap) (tol : ℚ),
      ((validate column_definitions t m tol).all_valid = true ↔
        noParseableViolation column_definitions t m)) ∧
    (validate column_definitions ⟨["No. Yrs"], [[Cell.null], [Cell.str "xyz"]]⟩
        mNY defaultTol).all_valid = false :=
  ⟨fun _ _ hc => applyFilters_invariant hc,
   fun t m tol => validate_all_valid_iff column_definitions t m tol,
   by decide⟩

/-- C1, witness: the amended invariant and the validator equivalence hold
at the concrete clean table `tCleanW`. -/
theorem C1_invariant_and_validator_witness :
    cleanTableB column_definitions tCleanW mNY = true ∧
    filterInvariant (applyFilters column_definitions tCleanW mNY) column_definitions mNY ∧
    ((validate column_definitions tCleanW mNY defaultTol).all_valid = true ↔
      noParseableViolation column_definitions tCleanW mNY) :=
  ⟨by decide, C1_invariant_and_validator.1 tCleanW mNY (by decide),
   C1_invariant_and_validator.2.1 tCleanW mNY defaultTol⟩

/-- C2: `round_numeric_columns` runs strictly after `apply_filters` in
`main` and never adds, drops or reorders a row, so every pass/fail decision
is made on the full-precision normalised value; concretely, the cell
25.0049 passes the `("No. Yrs", >, 25)` filter at full precision — though
its rounded value 25.0 would fail it — and appears as 25.0 in the rounded
output. -/
theorem C2_round_after_filter :
    (∀ T : Table, (roundNumericColumns T).headers = T.headers ∧
      (roundNumericColumns T).rows.length = T.rows.length) ∧
    (applyFilters column_definitions tBoundary mNY).rows
      = [[Cell.num (mkRat 250049 10000)]] ∧
    (roundNumericColumns (applyFilters column_definitions tBoundary mNY)).rows
      = [[Cell.num 25]] ∧
    Cmp.apply Cmp.gt (mkRat 250049 10000) 25 = true ∧
    Cmp.apply Cmp.gt (round2 (mkRat 250049 10000)) 25 = false := by
  refine ⟨fun T => ⟨rfl, ?_⟩, by decide, by decide, by decide, by decide⟩
  simp [roundNumericColumns]

/-- C3, counterexample: a row whose predicated cell is unparseable text is
NOT dropped: on `tNA` the `"N/A"` row survives `apply_filters` (the whole
column filter is skipped after the raise), contradicting the claim that
such rows are excluded with the predicate treated as false. -/
theorem C3_counterexample :
    [Cell.str "N/A"] ∈ (applyFilters column_definitions tNA mNY).rows ∧
    applyFiltersNormalize (Cell.str "N/A") = none ∧
    Cell.str "N/A" ≠ Cell.null := by decide

/-- C3 (amended): per predicated, matched column, a null cell makes the
filter lambda return `False`, so its row is dropped, non-fatally; but a
non-null unparseable cell makes the whole column's filter raise — the error
is caught and reported and that column then drops NO rows at all; other
columns' filters continue unaffected (each `filterStep` of the fold acts
independently on the surviving rows). -/
theorem C3_per_cell_behaviour (t : Table) (col : String) (cmp : Cmp) (thr : ℚ)
    (hcol : col ∈ t.headers) :
    ((∃ r ∈ t.rows, decision cmp thr (getCellD t.headers r col) = none) →
      filterStep t col cmp thr = t) ∧
    ((∀ r ∈ t.rows, (decision cmp thr (getCellD t.headers r col)).isSome = true) →
      (filterStep t col cmp thr).rows
        = t.rows.filter (fun r => decision cmp thr (getCellD t.headers r col) == some true) ∧
      ∀ r ∈ t.rows, getCellD t.headers r col = Cell.null →
        r ∉ (filterStep t col cmp thr).rows) := by
  constructor
  · exact fun he => filterStep_of_err hcol he
  · intro hok
    have hrows := congrArg Table.rows (filterStep_of_ok hcol (fun r hr => hok r hr))
    refine ⟨hrows, ?_⟩
    intro r hr hnull hmem
    rw [hrows] at hmem
    have hpass := (List.mem_filter.mp hmem).2
    rw [hnull] at hpass
    simp [decision] at hpass

/-- C3, witness: on `tNA` the unparseable `"N/A"` cell makes the
`"No. Yrs"` filter a no-op. -/
theorem C3_per_cell_behaviour_witness :
    "No. Yrs" ∈ tNA.headers ∧ filterStep tNA "No. Yrs" Cmp.gt 25 = tNA :=
  ⟨by decide,
   (C3_per_cell_behaviour tNA "No. Yrs" Cmp.gt 25 (by decide)).1
     ⟨[Cell.str "N/A"], by decide, by decide⟩⟩

/-- C4, counterexample: with `"N/A"` as a literal string cell, the
scenario's claim fails: the raise on `"N/A"` skips the whole `"No. Yrs"`
filter, all four rows survive (not just `[30]`), and the validator then
reports `all_valid = false` (25 and 10 violate `> 25`), not `true`. -/
theorem C4_counterexample :
    (applyFilters column_definitions tScenarioStr mNY).rows
      = [[Cell.num 30], [Cell.num 25], [Cell.num 10], [Cell.str "N/A"]] ∧
    (validate column_definitions
        (roundNumericColumns (applyFilters column_definitions tScenarioStr mNY))
        mNY defaultTol).all_valid = false := by decide

/-- C4 (amended): with the `"N/A"` cell as a null — which is what the Excel
reader hands `apply_filters`, `"N/A"` being a default pandas NA marker —
the scenario holds: only the row with 30 survives, and the validator
reports `all_valid = true` with no violations, no changed values and no
rounding-flagged columns. -/
theorem C4_scenario_null :
    (applyFilters column_definitions tScenarioNull mNY).rows = [[Cell.num 30]] ∧
    validate column_definitions
        (roundNumericColumns (applyFilters column_definitions tScenarioNull mNY))
        mNY defaultTol
      = ⟨true, [], [], []⟩ := by decide

/-- C5: the validator never detects rounding drift.  The input cell 30.0049
is rounded to 30.0 in the filtered output — a change of 0.0049, beyond the
0.001 tolerance — yet `validate_filtered_rows`, which compares `float(val)`
against `float(stripped(val))` of the same post-rounding cell (its
`original_val` is the just-parsed `numeric_val`, not the pre-rounding
value), records no changed value and flags no column. -/
theorem C5_no_drift_detection :
    (roundNumericColumns (applyFilters column_definitions tDrift mNY)).rows
      = [[Cell.num 30]] ∧
    pyIsClose 30 (mkRat 300049 10000) defaultTol = false ∧
    validate column_definitions
        (roundNumericColumns (applyFilters column_definitions tDrift mNY))
        mNY defaultTol
      = ⟨true, [], [], []⟩ := by decide

/-- C6: for every header list and every spec of a duplicate-free spec list,
`match_columns` maps the spec to the first header containing its logical
name as a case-insensitive substring; when no header contains it, the spec
is omitted from the map (never auto-accepted) and a warning carrying the
fuzzy suggestion for that spec is emitted. -/
theorem C6_matcher (defs : List ColumnSettings) (headers : List String)
    (suggest : String → List String → Option String) (cd : ColumnSettings)
    (hcd : cd ∈ defs) (hnd : (defs.map ColumnSettings.column_name).Nodup) :
    lookupCM (matchColumns defs headers suggest).1 cd.column_name
        = headers.find? (fun h => containsCI cd.column_name h) ∧
      (headers.find? (fun h => containsCI cd.column_name h) = none →
        (cd.column_name, suggest cd.column_name headers)
          ∈ (matchColumns defs headers suggest).2) :=
  matchColumns_lookup defs headers suggest cd hcd hnd

/-- C6, witness: against the single header `"Symbol"`, the `"No. Yrs"` spec
has no substring match, is omitted from the map, and gets a warning. -/
theorem C6_matcher_witness :
    lookupCM (matchColumns column_definitions ["Symbol"] (fun _ _ => none)).1 "No. Yrs"
        = List.find? (fun h => containsCI "No. Yrs" h) ["Symbol"] ∧
      (List.find? (fun h => containsCI "No. Yrs" h) ["Symbol"] = none →
        ("No. Yrs", (none : Option String))
          ∈ (matchColumns column_definitions ["Symbol"] (fun _ _ => none)).2) :=
  C6_matcher column_definitions ["Symbol"] (fun _ _ => none)
    ⟨"No. Yrs", some (Cmp.gt, 25), some ⟨none, true, none⟩, none⟩ (by decide) (by decide)

/-- C7, counterexample: a null cell does NOT produce a normalisation
failure at the validation call site: `float(str(nan))` succeeds as NaN, so
a null cell surviving into the filtered table is flagged by the validator
as a filter violation and a changed value — observably different from a
failure, which would be skipped with a diagnostic. -/
theorem C7_counterexample :
    validateNormalize Cell.null = some PyFloat.nan ∧
    (validate column_definitions tNullRow mNY defaultTol).all_valid = false ∧
    (validate column_definitions tNullRow mNY defaultTol).violations
      = [("No. Yrs", 0, Cell.null)] ∧
    (validate column_definitions tNullRow mNY defaultTol).changed_values
      = [("No. Yrs", 0, PyFloat.nan)] ∧
    (validate column_definitions tNullRow mNY defaultTol).rounded_cols
      = ["No. Yrs"] := by decide

/-- C7 (amended): the identical normalisation expression — text
conversion, `%`/`,` removal, float parse — runs at both call sites:
`"1,234.50%"` normalises to 1234.50, and the empty string fails to parse
at both sites, never yielding zero.  A null cell, however, is a failure
only at the filtering site, where the `pd.notnull` guard short-circuits it
to `False` (no predicate satisfied, row dropped) before normalisation
runs; at the validation site a null normalises successfully to NaN, which
satisfies no predicate. -/
theorem C7_normalizer :
    (∀ c : Cell, applyFiltersNormalize c = validateNormalize c) ∧
    applyFiltersNormalize (Cell.str "1,234.50%") = some (PyFloat.fin (mkRat 12345 10)) ∧
    applyFiltersNormalize (Cell.str "") = none ∧
    validateNormalize (Cell.str "") = none ∧
    (∀ (cmp : Cmp) (thr : ℚ), decision cmp thr Cell.null = some false) ∧
    validateNormalize Cell.null = some PyFloat.nan ∧
    (∀ (cmp : Cmp) (thr : ℚ), Cmp.applyF cmp PyFloat.nan thr = false) := by
  refine ⟨fun c => by cases c <;> rfl, by decide, by decide, by decide,
    fun cmp thr => rfl, by decide, fun cmp thr => rfl⟩

/-- C8: for every table and map, the output columns of `apply_filters` are
exactly the matched headers in `column_definitions` declaration order
(unmatched specs contribute none), and every output row is the projection
of a surviving row onto those columns. -/
theorem C8_output_columns (defs : List ColumnSettings) (t : Table) (m : ColumnMap) :
    (applyFilters defs t m).headers
        = defs.filterMap (fun cd => lookupCM m cd.column_name) ∧
      (applyFilters defs t m).rows
        = (filterPhase defs t m).rows.map
            (projectRow t.headers (defs.filterMap (fun cd => lookupCM m cd.column_name))) := by
  rw [applyFilters_def defs t m]
  exact ⟨rfl, rfl⟩

/-- C9, counterexample: `apply_filters` is not idempotent.  On `tTwoCol`
the first run skips the raising `"No. Yrs"` filter and keeps `[10, 5]`
(the `"N/A"` row falls to the `"Div. Yield"` filter), but the second run,
now free of the unparseable cell, applies the `"No. Yrs"` filter and drops
the remaining row. -/
theorem C9_counterexample :
    (applyFilters column_definitions tTwoCol mTwoCol).rows
      = [[Cell.num 10, Cell.num 5]] ∧
    (applyFilters column_definitions
        (applyFilters column_definitions tTwoCol mTwoCol) mTwoCol).rows = [] ∧
    applyFilters column_definitions
        (applyFilters column_definitions tTwoCol mTwoCol) mTwoCol
      ≠ applyFilters column_definitions tTwoCol mTwoCol := by decide

/-- C9 (amended): `apply_filters` is a fixed point on its own output
whenever no filter raises on the input, i.e. every predicated, matched
column exists and contains only null-or-parseable cells. -/
theorem C9_idempotent_when_clean (t : Table) (m : ColumnMap)
    (hc : cleanTableB column_definitions t m = true) :
    applyFilters column_definitions (applyFilters column_definitions t m) m
      = applyFilters column_definitions t m :=
  applyFilters_idem hc

/-- C9, witness: idempotence at the concrete clean table `tCleanW`. -/
theorem C9_idempotent_when_clean_witness :
    cleanTableB column_definitions tCleanW mNY = true ∧
    applyFilters column_definitions (applyFilters column_definitions tCleanW mNY) mNY
      = applyFilters column_definitions tCleanW mNY :=
  ⟨by decide, C9_idempotent_when_clean tCleanW mNY (by decide)⟩

/-- C10: `apply_styles` addresses worksheet columns by each matched spec's
1-based position `i + 1` in the full `column_definitions` list, while the
spec's data sits at output position `dataColOfSpec` (its rank among the
matched specs, grounded here against `final_cols`); the two coincide
exactly when every earlier spec is matched, so one unmatched earlier spec
shifts every later matched spec's styling off the column holding its
data. -/
theorem C10_style_misalignment (m : ColumnMap) (i : ℕ) (cd : ColumnSettings)
    (hget : column_definitions[i]? = some cd)
    (hm : (lookupCM m cd.column_name).isSome = true) :
    (i + 1, cd) ∈ styleApplications column_definitions m ∧
    (finalCols column_definitions m)[dataColOfSpec column_definitions m i - 1]?
        = lookupCM m cd.column_name ∧
    ((i + 1 = dataColOfSpec column_definitions m i) ↔
      ∀ cd' ∈ column_definitions.take i, (lookupCM m cd'.column_name).isSome = true) ∧
    ((∃ cd' ∈ column_definitions.take i, (lookupCM m cd'.column_name).isSome = false) →
      i + 1 ≠ dataColOfSpec column_definitions m i) := by
  obtain ⟨col, hcol⟩ := Option.isSome_iff_exists.mp hm
  have hlen : i < column_definitions.length := by
    rcases List.getElem?_eq_some.mp hget with ⟨h1, _⟩
    exact h1
  have htake : column_definitions.take (i + 1) = column_definitions.take i ++ [cd] := by
    rw [List.take_succ, hget]
    rfl
  have hdata : dataColOfSpec column_definitions m i
      = ((column_definitions.take i).filterMap
          (fun cd' => lookupCM m cd'.column_name)).length + 1 := by
    unfold dataColOfSpec finalCols
    rw [htake, List.filterMap_append]
    simp [List.filterMap_cons, hcol]
  have hlen_take : (column_definitions.take i).length = i := by
    rw [List.length_take]
    exact Nat.min_eq_left (le_of_lt hlen)
  have hiff : (i + 1 = dataColOfSpec column_definitions m i) ↔
      ∀ cd' ∈ column_definitions.take i, (lookupCM m cd'.column_name).isSome = true := by
    rw [hdata]
    constructor
    · intro h
      refine (length_filterMap_eq_iff _ _).mp ?_
      omega
    · intro h
      have := (length_filterMap_eq_iff
        (fun cd' => lookupCM m cd'.column_name) (column_definitions.take i)).mpr h
      omega
  refine ⟨?_, ?_, hiff, ?_⟩
  · have := styleAppsFrom_mem m column_definitions 1 i cd
      (by rw [List.get?_eq_getElem?]; exact hget) hm
    rwa [Nat.add_comm] at this
  · have hsplit : finalCols column_definitions m
        = ((column_definitions.take i).filterMap (fun cd' => lookupCM m cd'.column_name)
            ++ [col])
          ++ (column_definitions.drop (i + 1)).filterMap
              (fun cd' => lookupCM m cd'.column_name) := by
      unfold finalCols
      conv_lhs => rw [← List.take_append_drop (i + 1) column_definitions]
      rw [List.filterMap_append, htake, List.filterMap_append]
      simp [List.filterMap_cons, hcol]
    rw [hsplit, hdata, hcol, Nat.add_sub_cancel]
    rw [List.getElem?_append_left (by simp [List.length_append])]
    rw [List.getElem?_append_right (le_refl _), Nat.sub_self]
    rfl
  · rintro ⟨cd', hmem, hfalse⟩ heq
    have := hiff.mp heq cd' hmem
    rw [hfalse] at this
    cases this

/-- C10, witness: with only `"Price"` (position 6 in the list) matched, its
style lands on worksheet column 6 while its data sits in output column 1,
and the misalignment condition holds (the specs before it are unmatched). -/
theorem C10_style_misalignment_witness :
    (5 + 1, (⟨"Price", none, some ⟨some BLUE_COLOR, false, none⟩, none⟩ : ColumnSettings))
        ∈ styleApplications column_definitions mPrice ∧
    (finalCols column_definitions mPrice)[dataColOfSpec column_definitions mPrice 5 - 1]?
        = lookupCM mPrice "Price" ∧
    ((5 + 1 = dataColOfSpec column_definitions mPrice 5) ↔
      ∀ cd' ∈ column_definitions.take 5, (lookupCM mPrice cd'.column_name).isSome = true) ∧
    ((∃ cd' ∈ column_definitions.take 5, (lookupCM mPrice cd'.column_name).isSome = false) →
      5 + 1 ≠ dataColOfSpec column_definitions mPrice 5) :=
  C10_style_misalignment mPrice 5
    ⟨"Price", none, some ⟨some BLUE_COLOR, false, none⟩, none⟩ (by decide) (by decide)

end DividendFilter
